import Mathlib

/-!
Verification of the dynamic-ui-agent structured-output core.

A shallow embedding of the repository's structured-output contract and
normalization pipeline:

* `JValue` — JSON-like values, the raw material the zod schemas validate.
* `UIElement`, `AgentResponse`, … — the parsed data model from
  `lib/src/agent/schema.ts` (`UIElementSchema`, `AgentResponseSchema`).
* `parseUIElement` / `parseAgentResponse` — the validation (`.parse`)
  semantics of the zod schemas, including default application, enum and
  range checks, and recursive validation of `children` / `fields`.
* `assignIdsToTree`, `ensureIds` — the tree normalizer from
  `lib/src/agent/index.ts`; the non-deterministic `randomUUID()` source is
  modelled as an explicit supply `Nat → String` with a threaded counter.
* `buildFallbackResponse`, `statCard` — the fallback synthesizer.
* `respond` / `createAgent` — the generation orchestrator of
  `lib/src/agent/index.ts`, with the external `generateText` call abstracted
  as an `Option JValue` outcome (`none` models a thrown backend error,
  a missing tool call, or schema-validation failure inside the SDK);
  `srcRespond` / `srcCreateAgent` — the `generateObject`-based variant from
  `src/src/agent/index.ts`, which rethrows instead of falling back.

Numbers are modelled as `Int` (every numeric value appearing in the
repository's schemas, defaults and fallback trees is integral).
-/

namespace DUA

/-- JSON-like values: the raw objects produced by the generation backend and
consumed by zod validation. Object keys are an association list (JS objects;
first binding wins on lookup). -/
inductive JValue : Type where
  | null : JValue
  | bool (b : Bool) : JValue
  | num (n : Int) : JValue
  | str (s : String) : JValue
  | arr (elems : List JValue) : JValue
  | obj (fields : List (String × JValue)) : JValue


/-- Key lookup in a JS object (first binding wins). -/
def jlookup (k : String) : List (String × JValue) → Option JValue
  | [] => none
  | (k', v) :: rest => if k' = k then some v else jlookup k rest

/-- A `table` column descriptor: key and header (schema.ts `columns`). -/
structure ColumnSpec where
  key : String
  header : String


/-- Props of a validated `input` node (schema.ts `UIInput.props`).
`value` is `z.union([z.string(), z.number()]).optional()`, kept as a raw
`JValue` restricted by the parser. -/
structure InputProps where
  name : String
  label : Option String
  placeholder : Option String
  value : Option JValue
  required : Option Bool
  inputType : String


/-- A validated UI node (schema.ts `UIElementSchema`): a tagged variant over
the nine built-in kinds. `form.fields` is a list of nodes (restricted to
`input` nodes by validation, but typed loosely to mirror the
`props.fields as UIElement[]` cast in the normalizer). -/
inductive UIElement : Type where
  | text (id : Option String) (text : String) (variant : String) : UIElement
  | heading (id : Option String) (text : String) (level : Int) : UIElement
  | button (id : Option String) (label : String) (variant : String)
      (actionId : Option String) : UIElement
  | input (id : Option String) (props : InputProps) : UIElement
  | form (id : Option String) (title : Option String) (fields : List UIElement)
      (submitLabel : String) (actionId : Option String) : UIElement
  | list (id : Option String) (items : List String) : UIElement
  | table (id : Option String) (columns : List ColumnSpec)
      (rows : List (List (String × JValue))) : UIElement
  | code (id : Option String) (language : String) (code : String) : UIElement
  | container (id : Option String) (direction : String) (gap : Int)
      (align : String) (justify : String) (children : List UIElement) : UIElement


/-- Chat message (schema.ts `ChatMessageSchema`). -/
structure ChatMessage where
  role : String
  content : String


/-- Action descriptor (schema.ts `UIActionSchema`). -/
structure UIAction where
  id : String
  type : String
  label : Option String
  params : Option (List (String × JValue))


/-- The response envelope (schema.ts `AgentResponseSchema`). -/
structure AgentResponse where
  title : Option String
  description : Option String
  messages : List ChatMessage
  ui : List UIElement
  actions : List UIAction
  suggestions : List String
  followUpQuestion : Option String


/-- The `id` field of a node (`node.id`). -/
def idOf : UIElement → Option String
  | .text id _ _ => id
  | .heading id _ _ => id
  | .button id _ _ _ => id
  | .input id _ => id
  | .form id _ _ _ _ => id
  | .list id _ => id
  | .table id _ _ => id
  | .code id _ _ => id
  | .container id _ _ _ _ _ => id

/-- Overwrite the `id` field of a node (the `{ ...node, id }` spread). -/
def setId (s : String) : UIElement → UIElement
  | .text _ t v => .text (some s) t v
  | .heading _ t l => .heading (some s) t l
  | .button _ l v a => .button (some s) l v a
  | .input _ p => .input (some s) p
  | .form _ t fs sl a => .form (some s) t fs sl a
  | .list _ items => .list (some s) items
  | .table _ c r => .table (some s) c r
  | .code _ l c => .code (some s) l c
  | .container _ d g a j cs => .container (some s) d g a j cs

/-- Model of `node.id ?? randomUUID()`: keep an existing id, otherwise consume the
next identifier from the supply (the counter advances only on a mint). -/
def mintId (supply : Nat → String) (id : Option String) (n : Nat) : String × Nat :=
  match id with
  | some s => (s, n)
  | none => (supply n, n + 1)

/-- The shallow pass over a form's `props.fields`:
`fields.map((f) => ({ ...f, id: f.id ?? randomUUID() }))`. -/
def assignFields (supply : Nat → String) : List UIElement → Nat → List UIElement × Nat
  | [], n => ([], n)
  | f :: fs, n =>
    let (i, n₁) := mintId supply (idOf f) n
    let (fs', n₂) := assignFields supply fs n₁
    (setId i f :: fs', n₂)

mutual

/-- One node of `assignIdsToTree` (`nodes.map((node) => ...)` body,
lib/src/agent/index.ts lines 36-51): mint the node's id first, then recurse
into a container's `children`, then shallowly re-id a form's `props.fields`. -/
def assignIdsToNode (supply : Nat → String) : UIElement → Nat → UIElement × Nat
  | .container id d g a j cs, n =>
    let (i, n₁) := mintId supply id n
    let (cs', n₂) := assignIdsToTree supply cs n₁
    (.container (some i) d g a j cs', n₂)
  | .form id t fs sl aid, n =>
    let (i, n₁) := mintId supply id n
    let (fs', n₂) := assignFields supply fs n₁
    (.form (some i) t fs' sl aid, n₂)
  | .text id t v, n =>
    let (i, n₁) := mintId supply id n
    (.text (some i) t v, n₁)
  | .heading id t l, n =>
    let (i, n₁) := mintId supply id n
    (.heading (some i) t l, n₁)
  | .button id l v a, n =>
    let (i, n₁) := mintId supply id n
    (.button (some i) l v a, n₁)
  | .input id p, n =>
    let (i, n₁) := mintId supply id n
    (.input (some i) p, n₁)
  | .list id items, n =>
    let (i, n₁) := mintId supply id n
    (.list (some i) items, n₁)
  | .table id c r, n =>
    let (i, n₁) := mintId supply id n
    (.table (some i) c r, n₁)
  | .code id l c, n =>
    let (i, n₁) := mintId supply id n
    (.code (some i) l c, n₁)

/-- The tree normalizer `assignIdsToTree` (lib/src/agent/index.ts).
`randomUUID()` is modelled by the supply/counter pair. -/
def assignIdsToTree (supply : Nat → String) : List UIElement → Nat → List UIElement × Nat
  | [], n => ([], n)
  | nd :: rest, n =>
    let (nd', n₁) := assignIdsToNode supply nd n
    let (rest', n₂) := assignIdsToTree supply rest n₁
    (nd' :: rest', n₂)

end

/-- Model of `ensureIds` (lib/src/agent/index.ts): normalize the `ui` forest of an
envelope. -/
def ensureIds (supply : Nat → String) (n : Nat) (resp : AgentResponse) : AgentResponse :=
  { resp with ui := (assignIdsToTree supply resp.ui n).1 }

/-- Is `pre` a prefix of `l` (character-wise)? -/
def prefixEq : List Char → List Char → Bool
  | [], _ => true
  | _ :: _, [] => false
  | a :: as, b :: bs => a == b && prefixEq as bs

/-- Does `needle` occur contiguously in `l`? -/
def containsSeq (needle : List Char) : List Char → Bool
  | [] => needle.isEmpty
  | c :: rest => prefixEq needle (c :: rest) || containsSeq needle rest

/-- Substring test: model of a JS alternation-free regex literal `.test`. -/
def containsSub (hay needle : String) : Bool := containsSeq needle.data hay.data

/-- Model of `prompt.toLowerCase()` (ASCII, which covers every keyword tested). -/
def lowerStr (s : String) : String := ⟨s.data.map Char.toLower⟩

/-- Model of the test `/(pricing|plans|tiers?)/` on `lower`: the optional `s` of `tiers?` is
subsumed by the substring `tier`. -/
def pricingMatch (lower : String) : Bool :=
  containsSub lower "pricing" || containsSub lower "plans" || containsSub lower "tier"

/-- Model of the test `/(dashboard|stat|kpi|metric|card)/` on `lower`. -/
def dashboardMatch (lower : String) : Bool :=
  containsSub lower "dashboard" || containsSub lower "stat" || containsSub lower "kpi" ||
    containsSub lower "metric" || containsSub lower "card"

/-- Model of `statCard` (lib/src/agent/index.ts lines 206-216). -/
def statCard (label value : String) (hint : Option String) : UIElement :=
  .container none "column" 8 "start" "start"
    ([.text none label "muted", .heading none value 2] ++
      (match hint with
       | some h => [.text none h "caption"]
       | none => []))

/-- Model of `buildFallbackResponse` (lib/src/agent/index.ts lines 136-204): the
deterministic keyword-driven fallback synthesizer. -/
def buildFallbackResponse (prompt : String) : AgentResponse :=
  let lower := lowerStr prompt
  if pricingMatch lower then
    { title := some "Pricing"
      description := some "Auto-generated pricing table (fallback)"
      messages := []
      ui := [.table none
        [⟨"tier", "Tier"⟩, ⟨"price", "Price"⟩, ⟨"features", "Features"⟩]
        [[("tier", .str "Basic"), ("price", .str "$10/mo"),
            ("features", .str "Feature A, Feature B")],
          [("tier", .str "Pro"), ("price", .str "$20/mo"),
            ("features", .str "Feature A, Feature B, Feature C")]]]
      actions := []
      suggestions := ["Show enterprise tier", "Add billing cycle switcher"]
      followUpQuestion := none }
  else if dashboardMatch lower then
    { title := some "Dashboard"
      description := some "Auto-generated stats card (fallback)"
      messages := []
      ui := [.container none "row" 16 "start" "start"
        [statCard "Users" "1,234" (some "+12% MoM"),
          statCard "Revenue" "$56,789" (some "+5% MoM"),
          statCard "Conversion" "3.2%" (some "+0.3 pp")]]
      actions := []
      suggestions := ["Show last 7 days", "Add sparkline", "Breakdown by segment"]
      followUpQuestion := none }
  else
    { title := some "Generated UI"
      description := some "Auto-generated fallback based on your prompt"
      messages := []
      ui := [.container none "column" 12 "start" "start"
        [.heading none "Request" 3, .text none prompt "body"]]
      actions := []
      suggestions := ["Clarify fields or layout", "Include data examples"]
      followUpQuestion := none }

mutual

/-- Structural size of a JSON value: an upper bound on nesting depth, used as
validation fuel (string/number payloads do not count, so sizes of the trees
the core builds are closed terms even when a leaf holds a free string). -/
def jsize : JValue → Nat
  | .null => 1
  | .bool _ => 1
  | .num _ => 1
  | .str _ => 1
  | .arr xs => jsizeList xs + 1
  | .obj fs => jsizeFields fs + 1

/-- Size of an array's elements. -/
def jsizeList : List JValue → Nat
  | [] => 0
  | v :: vs => jsize v + jsizeList vs

/-- Size of an object's fields. -/
def jsizeFields : List (String × JValue) → Nat
  | [] => 0
  | (_, v) :: fs => jsize v + jsizeFields fs

end

/-- Semantics of `z.string()`: a required string field. -/
def parseStr : Option JValue → Except String String
  | some (.str s) => .ok s
  | _ => .error "expected string"

/-- Semantics of `z.string().optional()`. -/
def parseOptStr : Option JValue → Except String (Option String)
  | none => .ok none
  | some (.str s) => .ok (some s)
  | some _ => .error "expected string"

/-- Semantics of `z.boolean().optional()`. -/
def parseOptBool : Option JValue → Except String (Option Bool)
  | none => .ok none
  | some (.bool b) => .ok (some b)
  | some _ => .error "expected boolean"

/-- Semantics of `z.union([z.string(), z.number()]).optional()` (input `value`). -/
def parseOptValue : Option JValue → Except String (Option JValue)
  | none => .ok none
  | some (.str s) => .ok (some (.str s))
  | some (.num n) => .ok (some (.num n))
  | some _ => .error "expected string or number"

/-- Semantics of `z.enum([...]).default(dflt)`: absent takes the default, present must be a
member of the enum. -/
def parseEnum (allowed : List String) (dflt : String) : Option JValue → Except String String
  | none => .ok dflt
  | some (.str s) => if allowed.contains s then .ok s else .error "invalid enum value"
  | some _ => .error "expected string"

/-- Semantics of `z.enum([...])` with no default: a required enum field. -/
def parseEnumReq (allowed : List String) : Option JValue → Except String String
  | some (.str s) => if allowed.contains s then .ok s else .error "invalid enum value"
  | _ => .error "expected enum string"

/-- Semantics of `z.number().min(lo).max(hi).default(dflt)`: absent takes the default, an
out-of-range value is REJECTED (zod `.min`/`.max` are checks, not clamps). -/
def parseNumRange (lo hi dflt : Int) : Option JValue → Except String Int
  | none => .ok dflt
  | some (.num n) => if lo ≤ n ∧ n ≤ hi then .ok n else .error "number out of range"
  | some _ => .error "expected number"

/-- Semantics of `z.string().default(dflt)`. -/
def parseStrDefault (dflt : String) : Option JValue → Except String String
  | none => .ok dflt
  | some (.str s) => .ok s
  | some _ => .error "expected string"

/-- Semantics of `UIInput.props` (schema.ts lines 15-22). -/
def parseInputProps : JValue → Except String InputProps
  | .obj ps => do
    let name ← parseStr (jlookup "name" ps)
    let label ← parseOptStr (jlookup "label" ps)
    let placeholder ← parseOptStr (jlookup "placeholder" ps)
    let value ← parseOptValue (jlookup "value" ps)
    let required ← parseOptBool (jlookup "required" ps)
    let inputType ← parseEnum ["text", "email", "password", "number", "date"] "text"
      (jlookup "inputType" ps)
    .ok ⟨name, label, placeholder, value, required, inputType⟩
  | _ => .error "props: expected object"

/-- Semantics of `UIInput` (schema.ts lines 12-23): the only element accepted inside a
form's `fields`; the `type` discriminant must be the literal `input`. -/
def parseUIInput : JValue → Except String UIElement
  | .obj fs =>
    match jlookup "type" fs with
    | some (.str t) =>
      if t = "input" then do
        let id ← parseOptStr (jlookup "id" fs)
        match jlookup "props" fs with
        | some pv => do
          let props ← parseInputProps pv
          .ok (.input id props)
        | none => .error "props: required"
      else .error "fields entry must be an input element"
    | _ => .error "fields entry must be an input element"
  | _ => .error "expected object"

/-- Semantics of `z.array(UIInput)` for a form's `fields`. -/
def parseFields : List JValue → Except String (List UIElement)
  | [] => .ok []
  | v :: vs => do
    let f ← parseUIInput v
    let rest ← parseFields vs
    .ok (f :: rest)

/-- Semantics of `z.array(z.string())`. -/
def parseStrList : List JValue → Except String (List String)
  | [] => .ok []
  | .str s :: vs => do
    let rest ← parseStrList vs
    .ok (s :: rest)
  | _ :: _ => .error "expected string"

/-- One `table` column: `{key, header}` (unknown keys stripped). -/
def parseColumn : JValue → Except String ColumnSpec
  | .obj fs => do
    let key ← parseStr (jlookup "key" fs)
    let header ← parseStr (jlookup "header" fs)
    .ok ⟨key, header⟩
  | _ => .error "expected object"

/-- Semantics of the `columns` array schema. -/
def parseColumns : List JValue → Except String (List ColumnSpec)
  | [] => .ok []
  | v :: vs => do
    let c ← parseColumn v
    let rest ← parseColumns vs
    .ok (c :: rest)

/-- One `table` row: `z.record(z.any())` keeps the object's fields as-is. -/
def parseRow : JValue → Except String (List (String × JValue))
  | .obj fs => .ok fs
  | _ => .error "expected object"

/-- Semantics of `z.array(z.record(z.any()))`. -/
def parseRows : List JValue → Except String (List (List (String × JValue)))
  | [] => .ok []
  | v :: vs => do
    let r ← parseRow v
    let rest ← parseRows vs
    .ok (r :: rest)

/-- Semantics of `UIElementSchema.parse` (schema.ts lines 36-103): the recursive
discriminated union over the nine node kinds. `fuel` bounds the recursion
into a container's `children`; the entry point supplies `jsize`, which always
dominates the nesting depth, so the artificial `fuel = 0` failure is
unreachable from `parseUIElement`. -/
def parseUIElementF : Nat → JValue → Except String UIElement
  | 0, _ => .error "max depth exceeded"
  | fuel + 1, v =>
    match v with
    | .obj fs =>
      match jlookup "type" fs with
      | some (.str "text") => do
        let id ← parseOptStr (jlookup "id" fs)
        match jlookup "props" fs with
        | some (.obj ps) => do
          let t ← parseStr (jlookup "text" ps)
          let variant ← parseEnum ["body", "muted", "caption"] "body" (jlookup "variant" ps)
          .ok (.text id t variant)
        | some _ => .error "props: expected object"
        | none => .error "props: required"
      | some (.str "heading") => do
        let id ← parseOptStr (jlookup "id" fs)
        match jlookup "props" fs with
        | some (.obj ps) => do
          let t ← parseStr (jlookup "text" ps)
          let level ← parseNumRange 1 4 2 (jlookup "level" ps)
          .ok (.heading id t level)
        | some _ => .error "props: expected object"
        | none => .error "props: required"
      | some (.str "button") => do
        let id ← parseOptStr (jlookup "id" fs)
        match jlookup "props" fs with
        | some (.obj ps) => do
          let label ← parseStr (jlookup "label" ps)
          let variant ← parseEnum ["primary", "secondary", "danger"] "primary"
            (jlookup "variant" ps)
          let actionId ← parseOptStr (jlookup "actionId" ps)
          .ok (.button id label variant actionId)
        | some _ => .error "props: expected object"
        | none => .error "props: required"
      | some (.str "input") => parseUIInput v
      | some (.str "form") => do
        let id ← parseOptStr (jlookup "id" fs)
        match jlookup "props" fs with
        | some (.obj ps) => do
          let title ← parseOptStr (jlookup "title" ps)
          let fields ←
            match jlookup "fields" ps with
            | none => .ok []
            | some (.arr vs) => parseFields vs
            | some _ => .error "fields: expected array"
          let submitLabel ← parseStrDefault "Submit" (jlookup "submitLabel" ps)
          let actionId ← parseOptStr (jlookup "actionId" ps)
          .ok (.form id title fields submitLabel actionId)
        | some _ => .error "props: expected object"
        | none => .error "props: required"
      | some (.str "list") => do
        let id ← parseOptStr (jlookup "id" fs)
        match jlookup "props" fs with
        | some (.obj ps) =>
          match jlookup "items" ps with
          | some (.arr vs) => do
            let items ← parseStrList vs
            .ok (.list id items)
          | some _ => .error "items: expected array"
          | none => .error "items: required"
        | some _ => .error "props: expected object"
        | none => .error "props: required"
      | some (.str "table") => do
        let id ← parseOptStr (jlookup "id" fs)
        match jlookup "props" fs with
        | some (.obj ps) => do
          let columns ←
            match jlookup "columns" ps with
            | some (.arr vs) => parseColumns vs
            | some _ => .error "columns: expected array"
            | none => .error "columns: required"
          let rows ←
            match jlookup "rows" ps with
            | some (.arr vs) => parseRows vs
            | some _ => .error "rows: expected array"
            | none => .error "rows: required"
          .ok (.table id columns rows)
        | some _ => .error "props: expected object"
        | none => .error "props: required"
      | some (.str "code") => do
        let id ← parseOptStr (jlookup "id" fs)
        match jlookup "props" fs with
        | some (.obj ps) => do
          let language ← parseStrDefault "txt" (jlookup "language" ps)
          let c ← parseStr (jlookup "code" ps)
          .ok (.code id language c)
        | some _ => .error "props: expected object"
        | none => .error "props: required"
      | some (.str "container") => do
        let id ← parseOptStr (jlookup "id" fs)
        match jlookup "props" fs with
        | some (.obj ps) => do
          let direction ← parseEnum ["row", "column"] "column" (jlookup "direction" ps)
          let gap ← parseNumRange 0 48 12 (jlookup "gap" ps)
          let align ← parseEnum ["start", "center", "end", "stretch"] "start"
            (jlookup "align" ps)
          let justify ← parseEnum ["start", "center", "end", "between"] "start"
            (jlookup "justify" ps)
          let children ←
            match jlookup "children" fs with
            | none => .ok []
            | some (.arr cs) => cs.mapM (parseUIElementF fuel)
            | some _ => .error "children: expected array"
          .ok (.container id direction gap align justify children)
        | some _ => .error "props: expected object"
        | none => .error "props: required"
      | some (.str _) => .error "invalid discriminator value"
      | some _ => .error "invalid discriminator value"
      | none => .error "missing discriminator"
    | _ => .error "expected object"

/-- Built-in validation of a single UI node: `UIElementSchema.parse`. -/
def parseUIElement (v : JValue) : Except String UIElement :=
  parseUIElementF (jsize v) v

/-- Semantics of `ChatMessageSchema.parse`: role is a required enum, content a non-empty
string (`z.string().min(1)`). -/
def parseChatMessage : JValue → Except String ChatMessage
  | .obj fs => do
    let role ← parseEnumReq ["system", "user", "assistant", "tool"] (jlookup "role" fs)
    let content ← parseStr (jlookup "content" fs)
    if content = "" then .error "content: too small" else .ok ⟨role, content⟩
  | _ => .error "expected object"

/-- Semantics of `z.array(ChatMessageSchema)`. -/
def parseChatMessages : List JValue → Except String (List ChatMessage)
  | [] => .ok []
  | v :: vs => do
    let m ← parseChatMessage v
    let rest ← parseChatMessages vs
    .ok (m :: rest)

/-- Semantics of `UIActionSchema.parse` (schema.ts lines 106-111). -/
def parseUIAction : JValue → Except String UIAction
  | .obj fs => do
    let id ← parseStr (jlookup "id" fs)
    let type ← parseEnumReq ["submit", "navigate", "open_url", "emit_event", "call"]
      (jlookup "type" fs)
    let label ← parseOptStr (jlookup "label" fs)
    let params ←
      match jlookup "params" fs with
      | none => .ok none
      | some (.obj ps) => .ok (some ps)
      | some _ => .error "params: expected record"
    .ok ⟨id, type, label, params⟩
  | _ => .error "expected object"

/-- Semantics of `z.array(UIActionSchema)`. -/
def parseUIActions : List JValue → Except String (List UIAction)
  | [] => .ok []
  | v :: vs => do
    let a ← parseUIAction v
    let rest ← parseUIActions vs
    .ok (a :: rest)

/-- Semantics of `AgentResponseSchema.parse` (schema.ts lines 114-122): the built-in
envelope validation, with `[]` defaults for the four sequence fields. -/
def parseAgentResponse : JValue → Except String AgentResponse
  | .obj fs => do
    let title ← parseOptStr (jlookup "title" fs)
    let description ← parseOptStr (jlookup "description" fs)
    let messages ←
      match jlookup "messages" fs with
      | none => .ok []
      | some (.arr vs) => parseChatMessages vs
      | some _ => .error "messages: expected array"
    let ui ←
      match jlookup "ui" fs with
      | none => .ok []
      | some (.arr vs) => vs.mapM parseUIElement
      | some _ => .error "ui: expected array"
    let actions ←
      match jlookup "actions" fs with
      | none => .ok []
      | some (.arr vs) => parseUIActions vs
      | some _ => .error "actions: expected array"
    let suggestions ←
      match jlookup "suggestions" fs with
      | none => .ok []
      | some (.arr vs) => parseStrList vs
      | some _ => .error "suggestions: expected array"
    let followUpQuestion ← parseOptStr (jlookup "followUpQuestion" fs)
    .ok ⟨title, description, messages, ui, actions, suggestions, followUpQuestion⟩
  | _ => .error "expected object"

/-- Serialize an optional field: present keys only (JS omits `undefined`). -/
def optField (k : String) : Option String → List (String × JValue)
  | none => []
  | some s => [(k, .str s)]

mutual

/-- Serialize a validated node back to its JSON shape (the identity the JS
runtime applies implicitly: a validated element IS a plain object). -/
def encodeElement : UIElement → JValue
  | .text id t v =>
    .obj ([("type", .str "text")] ++ optField "id" id ++
      [("props", .obj [("text", .str t), ("variant", .str v)])])
  | .heading id t l =>
    .obj ([("type", .str "heading")] ++ optField "id" id ++
      [("props", .obj [("text", .str t), ("level", .num l)])])
  | .button id l v a =>
    .obj ([("type", .str "button")] ++ optField "id" id ++
      [("props", .obj ([("label", .str l), ("variant", .str v)] ++ optField "actionId" a))])
  | .input id p =>
    .obj ([("type", .str "input")] ++ optField "id" id ++
      [("props", .obj ([("name", .str p.name)] ++ optField "label" p.label ++
        optField "placeholder" p.placeholder ++
        (match p.value with | none => [] | some v => [("value", v)]) ++
        (match p.required with | none => [] | some b => [("required", .bool b)]) ++
        [("inputType", .str p.inputType)]))])
  | .form id t fs sl a =>
    .obj ([("type", .str "form")] ++ optField "id" id ++
      [("props", .obj (optField "title" t ++
        [("fields", .arr (encodeElements fs)), ("submitLabel", .str sl)] ++
        optField "actionId" a))])
  | .list id items =>
    .obj ([("type", .str "list")] ++ optField "id" id ++
      [("props", .obj [("items", .arr (items.map JValue.str))])])
  | .table id cols rows =>
    .obj ([("type", .str "table")] ++ optField "id" id ++
      [("props", .obj
        [("columns", .arr (cols.map fun c =>
            .obj [("key", .str c.key), ("header", .str c.header)])),
          ("rows", .arr (rows.map JValue.obj))])])
  | .code id l c =>
    .obj ([("type", .str "code")] ++ optField "id" id ++
      [("props", .obj [("language", .str l), ("code", .str c)])])
  | .container id d g a j cs =>
    .obj ([("type", .str "container")] ++ optField "id" id ++
      [("props", .obj [("direction", .str d), ("gap", .num g),
          ("align", .str a), ("justify", .str j)]),
        ("children", .arr (encodeElements cs))])

/-- Serialize a forest. -/
def encodeElements : List UIElement → List JValue
  | [] => []
  | nd :: rest => encodeElement nd :: encodeElements rest

end

/-- Serialize an envelope back to its JSON shape. -/
def encodeResponse (r : AgentResponse) : JValue :=
  .obj (optField "title" r.title ++ optField "description" r.description ++
    [("messages", .arr (r.messages.map fun m =>
        .obj [("role", .str m.role), ("content", .str m.content)])),
      ("ui", .arr (encodeElements r.ui)),
      ("actions", .arr (r.actions.map fun a =>
        .obj ([("id", .str a.id), ("type", .str a.type)] ++ optField "label" a.label ++
          (match a.params with | none => [] | some ps => [("params", .obj ps)])))),
      ("suggestions", .arr (r.suggestions.map JValue.str))] ++
    optField "followUpQuestion" r.followUpQuestion)

/-- Sampling configuration (`LLMConfig`, lib/src/agent/index.ts lines 13-20).
Only the fields named by the interface are modelled; they are forwarded to the
external backend and do not influence the orchestrator's routing. -/
structure LLMConfig where
  provider : Option String := none
  model : Option String := none
  temperature : Option Int := none
  maxTokens : Option Int := none
  topP : Option Int := none

/-- Model of `AgentConfig` (lib/src/agent/index.ts lines 22-28). A caller-supplied
custom schema is its validation capability, `JValue → Bool`. -/
structure AgentConfig where
  systemPrompt : Option String := none
  schema : Option (JValue → Bool) := none
  history : Option (List ChatMessage) := none
  llm : Option LLMConfig := none
  autoAssignIds : Option Bool := none

/-- What `respond` hands back to its caller: a returned object, or an
exception propagated out of the function. -/
inductive RespondResult : Type where
  | ok (v : JValue) : RespondResult
  | raised : RespondResult

/-- Decidable equality for `RespondResult` positions that matter in concrete
evaluations (payload comparison is not needed). -/
def RespondResult.isRaised : RespondResult → Bool
  | .ok _ => false
  | .raised => true

/-- The message sequence `[system] ++ history ++ [user]` assembled by both
orchestrator variants (forwarded to the external backend). -/
def assembleMessages (systemPrompt : String) (history : List ChatMessage)
    (userPrompt : String) : List ChatMessage :=
  ⟨"system", systemPrompt⟩ :: history ++ [⟨"user", userPrompt⟩]

/-- The SDK-side validation step inside `generateText`/`generateObject`:
a raw backend proposal (`gen = some args`; `none` models a network failure or
a missing required tool call) is checked against the active schema; failure
throws, which the orchestrator observes as its `catch` branch. -/
def validateAgainstActive (schema : Option (JValue → Bool)) (gen : Option JValue) :
    Option JValue :=
  gen.bind fun args =>
    match schema with
    | none => if (parseAgentResponse args).isOk then some args else none
    | some s => if s args then some args else none

/-- Model of `respond` (lib/src/agent/index.ts lines 60-134): the `generateText`-based
orchestrator. On any backend/validation failure the `catch` block builds
`buildFallbackResponse` and returns it — for a custom schema too, where the
built-in fallback envelope is force-cast to the caller's schema type. -/
def respond (userPrompt : String) (config : Option AgentConfig)
    (gen : Option JValue) (supply : Nat → String) (n : Nat) : RespondResult :=
  let schema := config.bind (·.schema)
  let autoAssignIds := (config.bind (·.autoAssignIds)).getD true
  match validateAgainstActive schema gen with
  | some args =>
    match schema with
    | none =>
      match parseAgentResponse args with
      | .ok r =>
        if autoAssignIds then .ok (encodeResponse (ensureIds supply n r))
        else .ok (encodeResponse r)
      | .error _ => .raised
    | some _ => .ok args
  | none =>
    let fallback := buildFallbackResponse userPrompt
    if autoAssignIds && schema.isNone then .ok (encodeResponse (ensureIds supply n fallback))
    else .ok (encodeResponse fallback)

/-- Model of `respond` (src/src/agent/index.ts lines 60-114): the `generateObject`-based
variant; its `catch` block rethrows (`throw err`), so every failure propagates
and the fallback synthesizer is never consulted. -/
def srcRespond (userPrompt : String) (config : Option AgentConfig)
    (gen : Option JValue) (supply : Nat → String) (n : Nat) : RespondResult :=
  let schema := config.bind (·.schema)
  let autoAssignIds := (config.bind (·.autoAssignIds)).getD true
  match validateAgainstActive schema gen with
  | some args =>
    match schema with
    | none =>
      match parseAgentResponse args with
      | .ok r =>
        if autoAssignIds then .ok (encodeResponse (ensureIds supply n r))
        else .ok (encodeResponse r)
      | .error _ => .raised
    | some _ => .ok args
  | none => .raised

/-- The object returned by `createAgent`. -/
structure Agent where
  respond : String → Option JValue → (Nat → String) → Nat → RespondResult
  getConfig : Option AgentConfig

/-- Model of `createAgent` (lib/src/agent/index.ts lines 218-225): a factory whose
`respond` closure forwards to the module-level `respond` with the captured
config. -/
def createAgent (config : Option AgentConfig) : Agent :=
  { respond := fun userPrompt gen supply n => respond userPrompt config gen supply n
    getConfig := config }

/-- Model of `createAgent` (src/src/agent/index.ts lines 116-123). -/
def srcCreateAgent (config : Option AgentConfig) : Agent :=
  { respond := fun userPrompt gen supply n => srcRespond userPrompt config gen supply n
    getConfig := config }

/-- The nested nodes a `container` owns (`children`); empty for other kinds. -/
def childrenOf : UIElement → List UIElement
  | .container _ _ _ _ _ cs => cs
  | _ => []

/-- The nested nodes a `form` owns (`props.fields`); empty for other kinds. -/
def fieldsOf : UIElement → List UIElement
  | .form _ _ fs _ _ => fs
  | _ => []

/-- One reachability step: `(false, i)` selects `children[i]`,
`(true, i)` selects `fields[i]`. -/
def descend (nd : UIElement) : Bool × Nat → Option UIElement
  | (false, i) => (childrenOf nd)[i]?
  | (true, i) => (fieldsOf nd)[i]?

/-- Address a node in a forest by a root index and a list of steps. -/
def getPath (forest : List UIElement) (i : Nat) (steps : List (Bool × Nat)) :
    Option UIElement :=
  (forest[i]?).bind fun nd => steps.foldlM descend nd

mutual

/-- All `id` values present on nodes reachable through `children`/`fields`
(pre-order; a missing id contributes nothing). -/
def collectIds : UIElement → List String
  | .container id _ _ _ _ cs => id.toList ++ collectIdsList cs
  | .form id _ fs _ _ => id.toList ++ collectIdsList fs
  | .text id _ _ => id.toList
  | .heading id _ _ => id.toList
  | .button id _ _ _ => id.toList
  | .input id _ => id.toList
  | .list id _ => id.toList
  | .table id _ _ => id.toList
  | .code id _ _ => id.toList

/-- Reachable ids of a forest. -/
def collectIdsList : List UIElement → List String
  | [] => []
  | nd :: rest => collectIds nd ++ collectIdsList rest

end

/-- Is this node an `input` element? -/
def isInputB : UIElement → Bool
  | .input _ _ => true
  | _ => false

mutual

/-- The structural consequence of schema validity the normalizer relies on:
every `form`'s `fields` hold only `input` nodes (the `z.array(UIInput)`
restriction), recursively through containers. -/
def fieldsSimple : UIElement → Bool
  | .container _ _ _ _ _ cs => fieldsSimpleList cs
  | .form _ _ fs _ _ => fs.all isInputB
  | _ => true

/-- Predicate `fieldsSimple` over a forest. -/
def fieldsSimpleList : List UIElement → Bool
  | [] => true
  | nd :: rest => fieldsSimple nd && fieldsSimpleList rest

end

mutual

/-- Every node reachable through `children`/`fields` carries an id. -/
def allIdentified : UIElement → Bool
  | .container id _ _ _ _ cs => id.isSome && allIdentifiedList cs
  | .form id _ fs _ _ => id.isSome && allIdentifiedList fs
  | nd => (idOf nd).isSome

/-- Predicate `allIdentified` over a forest. -/
def allIdentifiedList : List UIElement → Bool
  | [] => true
  | nd :: rest => allIdentified nd && allIdentifiedList rest

end

mutual

/-- The nodes the normalizer actually touches all carry an id: every node on
the `children` spine, and (shallowly) the direct `fields` of each such form. -/
def touchedIdentified : UIElement → Bool
  | .container id _ _ _ _ cs => id.isSome && touchedIdentifiedList cs
  | .form id _ fs _ _ => id.isSome && fs.all (fun f => (idOf f).isSome)
  | nd => (idOf nd).isSome

/-- Predicate `touchedIdentified` over a forest. -/
def touchedIdentifiedList : List UIElement → Bool
  | [] => true
  | nd :: rest => touchedIdentified nd && touchedIdentifiedList rest

end

/-- A raw heading node carrying a `level`. -/
def headingRaw (l : Int) : JValue :=
  .obj [("type", .str "heading"), ("props", .obj [("text", .str "x"), ("level", .num l)])]

/-- A raw container node carrying a `gap`. -/
def containerGapRaw (g : Int) : JValue :=
  .obj [("type", .str "container"), ("props", .obj [("gap", .num g)])]

/-- A raw form node with the given raw `fields` array. -/
def formFieldsRaw (vs : List JValue) : JValue :=
  .obj [("type", .str "form"), ("props", .obj [("fields", .arr vs)])]

/-- The `type` discriminant of a raw value, if any. -/
def jTypeOf : JValue → Option JValue
  | .obj fs => jlookup "type" fs
  | _ => none

/-- A concrete identifier supply: `u`, `uu`, `uuu`, … (injective, never empty,
never equal to the single-character id `a`). -/
def supply₀ (k : Nat) : String := ⟨List.replicate (k + 1) 'u'⟩

/-- The envelope refuting C2 as stated: schema-valid, but two nodes carry the
same pre-assigned id `a`, which normalization preserves. -/
def dupEnvelope : AgentResponse :=
  ⟨some "Dup", none, [], [.text (some "a") "x" "body", .text (some "a") "y" "body"],
    [], [], none⟩

/-- An id in the normalizer's output either came from the input (`pre`) or was
minted from the supply at an index in `[n, n')`. -/
def MintedIn (s : Nat → String) (n n' : Nat) (pre : List String) (y : String) : Prop :=
  y ∈ pre ∨ ∃ k, n ≤ k ∧ k < n' ∧ y = s k

/-- How an output node of the normalizer relates to the input node at the same
address: produced by the full per-node pass, by the shallow `fields` pass, or
(below a shallowly-processed field) left untouched. -/
inductive Tracks (s : Nat → String) : UIElement → UIElement → Prop where
  | assigned (nd : UIElement) (n : Nat) : Tracks s nd (assignIdsToNode s nd n).1
  | shallow (nd : UIElement) (n : Nat) : Tracks s nd (setId (mintId s (idOf nd) n).1 nd)
  | same (nd : UIElement) : Tracks s nd nd

/-! ## Equations for the normalizer (definitional, recorded for rewriting) -/

theorem assignNode_container (s : Nat → String) (id : Option String) (d : String)
    (g : Int) (a j : String) (cs : List UIElement) (n : Nat) :
    assignIdsToNode s (.container id d g a j cs) n =
      (.container (some (mintId s id n).1) d g a j
        (assignIdsToTree s cs (mintId s id n).2).1,
        (assignIdsToTree s cs (mintId s id n).2).2) := rfl

theorem assignNode_form (s : Nat → String) (id t : Option String)
    (fs : List UIElement) (sl : String) (aid : Option String) (n : Nat) :
    assignIdsToNode s (.form id t fs sl aid) n =
      (.form (some (mintId s id n).1) t (assignFields s fs (mintId s id n).2).1 sl aid,
        (assignFields s fs (mintId s id n).2).2) := rfl

theorem assignTree_cons (s : Nat → String) (nd : UIElement) (rest : List UIElement)
    (n : Nat) :
    assignIdsToTree s (nd :: rest) n =
      ((assignIdsToNode s nd n).1 ::
        (assignIdsToTree s rest (assignIdsToNode s nd n).2).1,
        (assignIdsToTree s rest (assignIdsToNode s nd n).2).2) := rfl

theorem assignFields_cons (s : Nat → String) (f : UIElement) (fs : List UIElement)
    (n : Nat) :
    assignFields s (f :: fs) n =
      (setId (mintId s (idOf f) n).1 f ::
        (assignFields s fs (mintId s (idOf f) n).2).1,
        (assignFields s fs (mintId s (idOf f) n).2).2) := rfl

/-! ## Basic facts about ids -/

theorem idOf_setId (s : String) (nd : UIElement) : idOf (setId s nd) = some s := by
  cases nd <;> rfl

theorem setId_eq_self {nd : UIElement} {s : String} (h : idOf nd = some s) :
    setId s nd = nd := by
  cases nd <;> (simp [idOf] at h; simp [setId, h])

theorem mintId_some (s : Nat → String) {id : Option String} {x : String}
    (h : id = some x) (n : Nat) : mintId s id n = (x, n) := by
  subst h; rfl

/-- The id the normalizer puts on a node is `mintId` of its old id. -/
theorem idOf_assignNode (s : Nat → String) (nd : UIElement) (n : Nat) :
    idOf (assignIdsToNode s nd n).1 = some (mintId s (idOf nd) n).1 := by
  cases nd <;> rfl

/-! ## The shallow `fields` pass -/

theorem assignFields_all_some (s : Nat → String) (fs : List UIElement) (n : Nat) :
    ((assignFields s fs n).1).all (fun f => (idOf f).isSome) = true := by
  induction fs generalizing n with
  | nil => rfl
  | cons f fs ih =>
    rw [assignFields_cons]
    simp only [List.all_cons, idOf_setId, Option.isSome_some, Bool.true_and]
    exact ih _

theorem assignFields_eq_self (s : Nat → String) {fs : List UIElement}
    (h : fs.all (fun f => (idOf f).isSome) = true) (n : Nat) :
    assignFields s fs n = (fs, n) := by
  induction fs generalizing n with
  | nil => rfl
  | cons f fs ih =>
    simp only [List.all_cons, Bool.and_eq_true] at h
    obtain ⟨hf, hfs⟩ := h
    obtain ⟨x, hx⟩ := Option.isSome_iff_exists.mp hf
    rw [assignFields_cons, mintId_some s hx, ih hfs]
    simp [setId_eq_self hx]

/-! ## The normalizer identifies every node it touches -/

mutual

theorem touched_assignNode (s : Nat → String) (nd : UIElement) (n : Nat) :
    touchedIdentified (assignIdsToNode s nd n).1 = true := by
  cases nd with
  | container id d g a j cs =>
    rw [assignNode_container]
    simp only [touchedIdentified, Option.isSome_some, Bool.true_and]
    exact touched_assignTree s cs (mintId s id n).2
  | form id t fs sl aid =>
    rw [assignNode_form]
    simp only [touchedIdentified, Option.isSome_some, Bool.true_and]
    exact assignFields_all_some s fs (mintId s id n).2
  | text id t v => rfl
  | heading id t l => rfl
  | button id l v a => rfl
  | input id p => rfl
  | list id items => rfl
  | table id c r => rfl
  | code id l c => rfl
termination_by sizeOf nd

theorem touched_assignTree (s : Nat → String) (l : List UIElement) (n : Nat) :
    touchedIdentifiedList (assignIdsToTree s l n).1 = true := by
  cases l with
  | nil => rfl
  | cons nd rest =>
    rw [assignTree_cons]
    simp only [touchedIdentifiedList, Bool.and_eq_true]
    exact ⟨touched_assignNode s nd n, touched_assignTree s rest (assignIdsToNode s nd n).2⟩
termination_by sizeOf l

end

/-! ## The normalizer is the identity on fully-touched-identified input -/

mutual

theorem assignNode_eq_self (s : Nat → String) (nd : UIElement)
    (h : touchedIdentified nd = true) (n : Nat) :
    assignIdsToNode s nd n = (nd, n) := by
  cases nd with
  | container id d g a j cs =>
    simp only [touchedIdentified, Bool.and_eq_true] at h
    obtain ⟨x, hx⟩ := Option.isSome_iff_exists.mp h.1
    rw [assignNode_container, mintId_some s hx, assignTree_eq_self s cs h.2]
    simp [hx]
  | form id t fs sl aid =>
    simp only [touchedIdentified, Bool.and_eq_true] at h
    obtain ⟨x, hx⟩ := Option.isSome_iff_exists.mp h.1
    rw [assignNode_form, mintId_some s hx, assignFields_eq_self s h.2]
    simp [hx]
  | text id t v =>
    simp only [touchedIdentified, idOf] at h
    obtain ⟨x, hx⟩ := Option.isSome_iff_exists.mp h
    show (UIElement.text (some (mintId s id n).1) t v, (mintId s id n).2) = _
    rw [mintId_some s hx]; simp [hx]
  | heading id t l =>
    simp only [touchedIdentified, idOf] at h
    obtain ⟨x, hx⟩ := Option.isSome_iff_exists.mp h
    show (UIElement.heading (some (mintId s id n).1) t l, (mintId s id n).2) = _
    rw [mintId_some s hx]; simp [hx]
  | button id l v a =>
    simp only [touchedIdentified, idOf] at h
    obtain ⟨x, hx⟩ := Option.isSome_iff_exists.mp h
    show (UIElement.button (some (mintId s id n).1) l v a, (mintId s id n).2) = _
    rw [mintId_some s hx]; simp [hx]
  | input id p =>
    simp only [touchedIdentified, idOf] at h
    obtain ⟨x, hx⟩ := Option.isSome_iff_exists.mp h
    show (UIElement.input (some (mintId s id n).1) p, (mintId s id n).2) = _
    rw [mintId_some s hx]; simp [hx]
  | list id items =>
    simp only [touchedIdentified, idOf] at h
    obtain ⟨x, hx⟩ := Option.isSome_iff_exists.mp h
    show (UIElement.list (some (mintId s id n).1) items, (mintId s id n).2) = _
    rw [mintId_some s hx]; simp [hx]
  | table id c r =>
    simp only [touchedIdentified, idOf] at h
    obtain ⟨x, hx⟩ := Option.isSome_iff_exists.mp h
    show (UIElement.table (some (mintId s id n).1) c r, (mintId s id n).2) = _
    rw [mintId_some s hx]; simp [hx]
  | code id l c =>
    simp only [touchedIdentified, idOf] at h
    obtain ⟨x, hx⟩ := Option.isSome_iff_exists.mp h
    show (UIElement.code (some (mintId s id n).1) l c, (mintId s id n).2) = _
    rw [mintId_some s hx]; simp [hx]
termination_by sizeOf nd

theorem assignTree_eq_self (s : Nat → String) (l : List UIElement)
    (h : touchedIdentifiedList l = true) (n : Nat) :
    assignIdsToTree s l n = (l, n) := by
  cases l with
  | nil => rfl
  | cons nd rest =>
    simp only [touchedIdentifiedList, Bool.and_eq_true] at h
    rw [assignTree_cons, assignNode_eq_self s nd h.1, assignTree_eq_self s rest h.2]
termination_by sizeOf l

end

/-- C1. Normalization is idempotent: re-running `assignIdsToTree` on its own
output (with any identifier supply and counter) returns that output unchanged
and mints nothing. The statement quantifies over all forests, which covers
every schema-valid forest of built-in nodes. -/
theorem assignIdsToTree_idempotent (s₁ s₂ : Nat → String) (n₁ n₂ : Nat)
    (nodes : List UIElement) :
    assignIdsToTree s₂ (assignIdsToTree s₁ nodes n₁).1 n₂ =
      ((assignIdsToTree s₁ nodes n₁).1, n₂) :=
  assignTree_eq_self s₂ _ (touched_assignTree s₁ nodes n₁) n₂

/-! ## Identity preservation (C3) -/

theorem childrenOf_setId (x : String) (nd : UIElement) :
    childrenOf (setId x nd) = childrenOf nd := by
  cases nd <;> rfl

theorem fieldsOf_setId (x : String) (nd : UIElement) :
    fieldsOf (setId x nd) = fieldsOf nd := by
  cases nd <;> rfl


theorem Tracks.id_preserved {s : Nat → String} {a b : UIElement} (t : Tracks s a b)
    {x : String} (h : idOf a = some x) : idOf b = some x := by
  cases t with
  | assigned n => rw [idOf_assignNode, mintId_some s h]
  | shallow n => rw [idOf_setId, mintId_some s h]
  | same => exact h

theorem assignTree_get (s : Nat → String) (l : List UIElement) :
    ∀ (n i : Nat) {c : UIElement}, l[i]? = some c →
      ∃ m, ((assignIdsToTree s l n).1)[i]? = some (assignIdsToNode s c m).1 := by
  induction l with
  | nil => intro n i c h; simp at h
  | cons nd rest ih =>
    intro n i c h
    rw [assignTree_cons]
    match i with
    | 0 =>
      simp only [List.getElem?_cons_zero, Option.some.injEq] at h
      subst h
      exact ⟨n, by simp⟩
    | i + 1 =>
      simp only [List.getElem?_cons_succ] at h ⊢
      exact ih (assignIdsToNode s nd n).2 i h

theorem assignFields_get (s : Nat → String) (l : List UIElement) :
    ∀ (n i : Nat) {f : UIElement}, l[i]? = some f →
      ∃ m, ((assignFields s l n).1)[i]? = some (setId (mintId s (idOf f) m).1 f) := by
  induction l with
  | nil => intro n i f h; simp at h
  | cons g rest ih =>
    intro n i f h
    rw [assignFields_cons]
    match i with
    | 0 =>
      simp only [List.getElem?_cons_zero, Option.some.injEq] at h
      subst h
      exact ⟨n, by simp⟩
    | i + 1 =>
      simp only [List.getElem?_cons_succ] at h ⊢
      exact ih (mintId s (idOf g) n).2 i h

theorem Tracks.descend {s : Nat → String} {a b : UIElement} (t : Tracks s a b)
    {st : Bool × Nat} {c : UIElement} (h : DUA.descend a st = some c) :
    ∃ d, DUA.descend b st = some d ∧ Tracks s c d := by
  cases t with
  | same => exact ⟨c, h, Tracks.same c⟩
  | shallow n =>
    refine ⟨c, ?_, Tracks.same c⟩
    obtain ⟨fl, i⟩ := st
    cases fl <;>
      simpa [DUA.descend, childrenOf_setId, fieldsOf_setId] using h
  | assigned n =>
    obtain ⟨fl, i⟩ := st
    cases a with
    | container id d g al j cs =>
      cases fl with
      | false =>
        simp only [DUA.descend, childrenOf] at h
        obtain ⟨m, hm⟩ := assignTree_get s cs (mintId s id n).2 i h
        exact ⟨_, hm, Tracks.assigned c m⟩
      | true => simp [DUA.descend, fieldsOf] at h
    | form id t fs sl aid =>
      cases fl with
      | false => simp [DUA.descend, childrenOf] at h
      | true =>
        simp only [DUA.descend, fieldsOf] at h
        obtain ⟨m, hm⟩ := assignFields_get s fs (mintId s id n).2 i h
        exact ⟨_, hm, Tracks.shallow c m⟩
    | text id t v => cases fl <;> simp [DUA.descend, childrenOf, fieldsOf] at h
    | heading id t l => cases fl <;> simp [DUA.descend, childrenOf, fieldsOf] at h
    | button id l v ac => cases fl <;> simp [DUA.descend, childrenOf, fieldsOf] at h
    | input id p => cases fl <;> simp [DUA.descend, childrenOf, fieldsOf] at h
    | list id items => cases fl <;> simp [DUA.descend, childrenOf, fieldsOf] at h
    | table id cl r => cases fl <;> simp [DUA.descend, childrenOf, fieldsOf] at h
    | code id l cd => cases fl <;> simp [DUA.descend, childrenOf, fieldsOf] at h

theorem Tracks.walk {s : Nat → String} (steps : List (Bool × Nat)) :
    ∀ {a b e : UIElement}, Tracks s a b → steps.foldlM DUA.descend a = some e →
      ∃ e', steps.foldlM DUA.descend b = some e' ∧ Tracks s e e' := by
  induction steps with
  | nil =>
    intro a b e t h
    simp only [List.foldlM_nil, Option.pure_def, Option.some.injEq] at h
    subst h
    exact ⟨b, rfl, t⟩
  | cons st rest ih =>
    intro a b e t h
    simp only [List.foldlM_cons, Option.bind_eq_bind, Option.bind_eq_some] at h ⊢
    obtain ⟨c, hc, hrest⟩ := h
    obtain ⟨d, hd, td⟩ := t.descend hc
    obtain ⟨e', he', te'⟩ := ih td hrest
    exact ⟨e', ⟨d, hd, he'⟩, te'⟩

/-- C3. Identity preservation: every node of the input forest that already
carries an `id` keeps exactly that id at the same address in the normalized
forest, for every identifier supply, counter, and address (root index plus
`children`/`fields` steps). -/
theorem assignIdsToTree_preserves_ids (s : Nat → String) (n : Nat)
    (nodes : List UIElement) (i : Nat) (steps : List (Bool × Nat))
    {nd : UIElement} {x : String}
    (h1 : getPath nodes i steps = some nd) (h2 : idOf nd = some x) :
    ∃ nd', getPath (assignIdsToTree s nodes n).1 i steps = some nd' ∧
      idOf nd' = some x := by
  simp only [getPath, Option.bind_eq_bind, Option.bind_eq_some] at h1 ⊢
  obtain ⟨root, hroot, hwalk⟩ := h1
  obtain ⟨m, hm⟩ := assignTree_get s nodes n i hroot
  obtain ⟨nd', hnd', t⟩ := Tracks.walk steps (Tracks.assigned root m) hwalk
  exact ⟨nd', ⟨_, hm, hnd'⟩, t.id_preserved h2⟩

/-- Witness for C3 at a concrete forest: a pinned id `keep` on a child of a
container survives normalization with a concrete supply. -/
theorem assignIdsToTree_preserves_ids_witness :
    ∃ nd', getPath (assignIdsToTree (fun k => s!"u{k}")
        [.container (some "root") "row" 0 "start" "start"
          [.text (some "keep") "x" "body"]] 0).1 0 [(false, 0)] = some nd' ∧
      idOf nd' = some "keep" :=
  assignIdsToTree_preserves_ids (fun k => s!"u{k}") 0
    [.container (some "root") "row" 0 "start" "start" [.text (some "keep") "x" "body"]]
    0 [(false, 0)] (by rfl) (by rfl)

/-! ## Identity uniqueness (C2) -/


theorem mintId_mono (s : Nat → String) (id : Option String) (n : Nat) :
    n ≤ (mintId s id n).2 := by
  cases id with
  | none => exact Nat.le_succ n
  | some x => exact Nat.le_refl n

/-- Head-slot lemma: one node's own id (kept or minted) prepended to a block of
ids accounted by `MintedIn` stays duplicate-free and accounted. -/
theorem minted_cons {s : Nat → String} (hinj : Function.Injective s)
    {pre₀ : Option String} {preRest rest : List String} {n n₁ n₂ : Nat} {i : String}
    (hmint : mintId s pre₀ n = (i, n₁))
    (hmono : n₁ ≤ n₂)
    (hmem : ∀ y ∈ rest, MintedIn s n₁ n₂ preRest y)
    (hpwrest : rest.Pairwise (· ≠ ·))
    (hfresh0 : ∀ y ∈ pre₀.toList, ∀ k, s k ≠ y)
    (hfreshR : ∀ y ∈ preRest, ∀ k, s k ≠ y)
    (hcross : ∀ x ∈ pre₀.toList, ∀ y ∈ preRest, x ≠ y) :
    n ≤ n₂ ∧
    (∀ y ∈ i :: rest, MintedIn s n n₂ (pre₀.toList ++ preRest) y) ∧
    (i :: rest).Pairwise (· ≠ ·) := by
  have hnn₁ : n ≤ n₁ := by
    have h := mintId_mono s pre₀ n
    rw [hmint] at h
    exact h
  refine ⟨Nat.le_trans hnn₁ hmono, ?_, ?_⟩
  · intro y hy
    rcases List.mem_cons.mp hy with hy | hy
    · subst hy
      cases pre₀ with
      | some x =>
        injection hmint with hi hn
        left
        simp [← hi]
      | none =>
        injection hmint with hi hn
        right
        exact ⟨n, Nat.le_refl n, by omega, hi.symm⟩
    · rcases hmem y hy with hpre | ⟨k, hk1, hk2, hk3⟩
      · left; exact List.mem_append_right _ hpre
      · right; exact ⟨k, Nat.le_trans hnn₁ hk1, hk2, hk3⟩
  · refine List.pairwise_cons.mpr ⟨?_, hpwrest⟩
    intro y hy
    rcases hmem y hy with hpre | ⟨k, hk1, hk2, hk3⟩
    · cases pre₀ with
      | some x =>
        injection hmint with hi hn
        subst hi
        exact hcross x (by simp) y hpre
      | none =>
        injection hmint with hi hn
        subst hi
        intro heq
        exact hfreshR y hpre n heq
    · cases pre₀ with
      | some x =>
        injection hmint with hi hn
        subst hi hk3
        intro heq
        exact hfresh0 x (by simp) k heq.symm
      | none =>
        injection hmint with hi hn
        subst hi hk3
        intro heq
        have : n = k := hinj heq
        omega

/-- Append lemma: two consecutively-minted blocks of ids stay duplicate-free
and accounted. -/
theorem minted_append {s : Nat → String} (hinj : Function.Injective s)
    {preL preR outL outR : List String} {n n₁ n₂ : Nat}
    (hmemL : ∀ y ∈ outL, MintedIn s n n₁ preL y)
    (hmemR : ∀ y ∈ outR, MintedIn s n₁ n₂ preR y)
    (hpwL : outL.Pairwise (· ≠ ·)) (hpwR : outR.Pairwise (· ≠ ·))
    (hfreshL : ∀ y ∈ preL, ∀ k, s k ≠ y) (hfreshR : ∀ y ∈ preR, ∀ k, s k ≠ y)
    (hcross : ∀ x ∈ preL, ∀ y ∈ preR, x ≠ y)
    (hm1 : n ≤ n₁) (hm2 : n₁ ≤ n₂) :
    (∀ y ∈ outL ++ outR, MintedIn s n n₂ (preL ++ preR) y) ∧
    (outL ++ outR).Pairwise (· ≠ ·) := by
  constructor
  · intro y hy
    rcases List.mem_append.mp hy with hy | hy
    · rcases hmemL y hy with hpre | ⟨k, hk1, hk2, hk3⟩
      · left; exact List.mem_append_left _ hpre
      · right; exact ⟨k, hk1, by omega, hk3⟩
    · rcases hmemR y hy with hpre | ⟨k, hk1, hk2, hk3⟩
      · left; exact List.mem_append_right _ hpre
      · right
        exact ⟨k, by omega, hk2, hk3⟩
  · refine List.pairwise_append.mpr ⟨hpwL, hpwR, ?_⟩
    intro x hx y hy
    rcases hmemL x hx with hpx | ⟨k, hk1, hk2, hk3⟩ <;>
      rcases hmemR y hy with hpy | ⟨k', hk1', hk2', hk3'⟩
    · exact hcross x hpx y hpy
    · subst hk3'
      intro heq
      exact hfreshL x hpx k' heq.symm
    · subst hk3
      intro heq
      exact hfreshR y hpy k heq
    · subst hk3 hk3'
      intro heq
      have : k = k' := hinj heq
      omega

theorem isInputB_shape {f : UIElement} (h : isInputB f = true) :
    ∃ id p, f = .input id p := by
  cases f with
  | input id p => exact ⟨id, p, rfl⟩
  | _ => simp [isInputB] at h

/-- Uniqueness spec of the shallow `fields` pass. -/
theorem uniq_fields {s : Nat → String} (hinj : Function.Injective s)
    (fs : List UIElement) :
    ∀ n, fs.all isInputB = true →
      (∀ y ∈ collectIdsList fs, ∀ k, s k ≠ y) →
      (collectIdsList fs).Pairwise (· ≠ ·) →
      n ≤ (assignFields s fs n).2 ∧
      (∀ y ∈ collectIdsList (assignFields s fs n).1,
        MintedIn s n (assignFields s fs n).2 (collectIdsList fs) y) ∧
      (collectIdsList (assignFields s fs n).1).Pairwise (· ≠ ·) := by
  induction fs with
  | nil =>
    intro n _ _ _
    exact ⟨Nat.le_refl n, by intro y hy; simp [collectIdsList] at hy, by constructor⟩
  | cons f fs ih =>
    intro n hall hfresh hpw
    simp only [List.all_cons, Bool.and_eq_true] at hall
    obtain ⟨id, p, rfl⟩ := isInputB_shape hall.1
    have hpre : collectIdsList (UIElement.input id p :: fs) =
        id.toList ++ collectIdsList fs := rfl
    rw [hpre] at hfresh hpw
    obtain ⟨hpw0, hpwR, hcross⟩ := List.pairwise_append.mp hpw
    have hfresh0 : ∀ y ∈ id.toList, ∀ k, s k ≠ y :=
      fun y hy => hfresh y (List.mem_append_left _ hy)
    have hfreshR : ∀ y ∈ collectIdsList fs, ∀ k, s k ≠ y :=
      fun y hy => hfresh y (List.mem_append_right _ hy)
    obtain ⟨hmono, hmem, hpw'⟩ :=
      ih (mintId s (idOf (UIElement.input id p)) n).2 hall.2 hfreshR hpwR
    rw [assignFields_cons]
    have hout : collectIdsList
        (setId (mintId s (idOf (UIElement.input id p)) n).1 (UIElement.input id p) ::
          (assignFields s fs (mintId s (idOf (UIElement.input id p)) n).2).1,
          (assignFields s fs (mintId s (idOf (UIElement.input id p)) n).2).2).1 =
        (mintId s (idOf (UIElement.input id p)) n).1 ::
          collectIdsList (assignFields s fs (mintId s (idOf (UIElement.input id p)) n).2).1 :=
      rfl
    rw [hout]
    exact minted_cons hinj rfl hmono hmem hpw' hfresh0 hfreshR hcross

/-- Uniqueness spec of normalizing a childless node. -/
theorem uniq_leaf {s : Nat → String} (hinj : Function.Injective s)
    (id : Option String) (n : Nat)
    (hfresh : ∀ y ∈ id.toList, ∀ k, s k ≠ y) :
    n ≤ (mintId s id n).2 ∧
    (∀ y ∈ [(mintId s id n).1], MintedIn s n (mintId s id n).2 id.toList y) ∧
    ([(mintId s id n).1] : List String).Pairwise (· ≠ ·) := by
  have h := @minted_cons s hinj id [] [] n (mintId s id n).2 (mintId s id n).2
    (mintId s id n).1 rfl (Nat.le_refl (mintId s id n).2)
    (by intro y hy; simp at hy) (by constructor) hfresh
    (by intro y hy; simp at hy) (by intro x hx y hy; simp at hy)
  rwa [List.append_nil] at h

mutual

/-- Uniqueness spec of the per-node normalization pass: the output's reachable
ids are duplicate-free and each is either a kept input id or freshly minted
within the consumed counter range. -/
theorem uniq_node {s : Nat → String} (hinj : Function.Injective s) (nd : UIElement)
    (n : Nat) (hfs : fieldsSimple nd = true)
    (hfresh : ∀ y ∈ collectIds nd, ∀ k, s k ≠ y)
    (hpw : (collectIds nd).Pairwise (· ≠ ·)) :
    n ≤ (assignIdsToNode s nd n).2 ∧
    (∀ y ∈ collectIds (assignIdsToNode s nd n).1,
      MintedIn s n (assignIdsToNode s nd n).2 (collectIds nd) y) ∧
    (collectIds (assignIdsToNode s nd n).1).Pairwise (· ≠ ·) := by
  cases nd with
  | container id d g a j cs =>
    have hpre : collectIds (UIElement.container id d g a j cs) =
        id.toList ++ collectIdsList cs := rfl
    rw [hpre] at hfresh hpw ⊢
    obtain ⟨hpw0, hpwR, hcross⟩ := List.pairwise_append.mp hpw
    have hfresh0 : ∀ y ∈ id.toList, ∀ k, s k ≠ y :=
      fun y hy => hfresh y (List.mem_append_left _ hy)
    have hfreshR : ∀ y ∈ collectIdsList cs, ∀ k, s k ≠ y :=
      fun y hy => hfresh y (List.mem_append_right _ hy)
    obtain ⟨hmono, hmem, hpw'⟩ :=
      uniq_tree hinj cs (mintId s id n).2 hfs hfreshR hpwR
    rw [assignNode_container]
    exact minted_cons hinj rfl hmono hmem hpw' hfresh0 hfreshR hcross
  | form id t fs sl aid =>
    have hpre : collectIds (UIElement.form id t fs sl aid) =
        id.toList ++ collectIdsList fs := rfl
    rw [hpre] at hfresh hpw ⊢
    obtain ⟨hpw0, hpwR, hcross⟩ := List.pairwise_append.mp hpw
    have hfresh0 : ∀ y ∈ id.toList, ∀ k, s k ≠ y :=
      fun y hy => hfresh y (List.mem_append_left _ hy)
    have hfreshR : ∀ y ∈ collectIdsList fs, ∀ k, s k ≠ y :=
      fun y hy => hfresh y (List.mem_append_right _ hy)
    obtain ⟨hmono, hmem, hpw'⟩ :=
      uniq_fields hinj fs (mintId s id n).2 hfs hfreshR hpwR
    rw [assignNode_form]
    exact minted_cons hinj rfl hmono hmem hpw' hfresh0 hfreshR hcross
  | text id tx v =>
    exact uniq_leaf hinj id n hfresh
  | heading id tx l =>
    exact uniq_leaf hinj id n hfresh
  | button id l v a =>
    exact uniq_leaf hinj id n hfresh
  | input id p =>
    exact uniq_leaf hinj id n hfresh
  | list id items =>
    exact uniq_leaf hinj id n hfresh
  | table id c r =>
    exact uniq_leaf hinj id n hfresh
  | code id l c =>
    exact uniq_leaf hinj id n hfresh
termination_by sizeOf nd

/-- Uniqueness spec of the forest-level normalization pass. -/
theorem uniq_tree {s : Nat → String} (hinj : Function.Injective s)
    (l : List UIElement) (n : Nat) (hfs : fieldsSimpleList l = true)
    (hfresh : ∀ y ∈ collectIdsList l, ∀ k, s k ≠ y)
    (hpw : (collectIdsList l).Pairwise (· ≠ ·)) :
    n ≤ (assignIdsToTree s l n).2 ∧
    (∀ y ∈ collectIdsList (assignIdsToTree s l n).1,
      MintedIn s n (assignIdsToTree s l n).2 (collectIdsList l) y) ∧
    (collectIdsList (assignIdsToTree s l n).1).Pairwise (· ≠ ·) := by
  cases l with
  | nil =>
    exact ⟨Nat.le_refl n, by intro y hy; simp [collectIdsList] at hy, by constructor⟩
  | cons nd rest =>
    simp only [fieldsSimpleList, Bool.and_eq_true] at hfs
    have hpre : collectIdsList (nd :: rest) = collectIds nd ++ collectIdsList rest := rfl
    rw [hpre] at hfresh hpw ⊢
    obtain ⟨hpwL, hpwR, hcross⟩ := List.pairwise_append.mp hpw
    have hfreshL : ∀ y ∈ collectIds nd, ∀ k, s k ≠ y :=
      fun y hy => hfresh y (List.mem_append_left _ hy)
    have hfreshR : ∀ y ∈ collectIdsList rest, ∀ k, s k ≠ y :=
      fun y hy => hfresh y (List.mem_append_right _ hy)
    obtain ⟨hm1, hmemL, hpwL'⟩ := uniq_node hinj nd n hfs.1 hfreshL hpwL
    obtain ⟨hm2, hmemR, hpwR'⟩ :=
      uniq_tree hinj rest (assignIdsToNode s nd n).2 hfs.2 hfreshR hpwR
    rw [assignTree_cons]
    have hout : collectIdsList ((assignIdsToNode s nd n).1 ::
        (assignIdsToTree s rest (assignIdsToNode s nd n).2).1,
        (assignIdsToTree s rest (assignIdsToNode s nd n).2).2).1 =
        collectIds (assignIdsToNode s nd n).1 ++
          collectIdsList (assignIdsToTree s rest (assignIdsToNode s nd n).2).1 := rfl
    rw [hout]
    obtain ⟨hmem, hpw'⟩ := minted_append hinj hmemL hmemR hpwL' hpwR'
      hfreshL hfreshR hcross hm1 hm2
    exact ⟨Nat.le_trans hm1 hm2, hmem, hpw'⟩
termination_by sizeOf l

end

theorem allIdent_fields (s : Nat → String) (fs : List UIElement) :
    ∀ n, fs.all isInputB = true →
      allIdentifiedList (assignFields s fs n).1 = true := by
  induction fs with
  | nil => intro n _; rfl
  | cons f fs ih =>
    intro n hall
    simp only [List.all_cons, Bool.and_eq_true] at hall
    obtain ⟨id, p, rfl⟩ := isInputB_shape hall.1
    rw [assignFields_cons]
    show (allIdentified (UIElement.input (some _) p) &&
      allIdentifiedList (assignFields s fs _).1) = true
    rw [ih _ hall.2]
    rfl

mutual

theorem allIdent_node (s : Nat → String) (nd : UIElement) (n : Nat)
    (hfs : fieldsSimple nd = true) :
    allIdentified (assignIdsToNode s nd n).1 = true := by
  cases nd with
  | container id d g a j cs =>
    rw [assignNode_container]
    show ((some (mintId s id n).1).isSome &&
      allIdentifiedList (assignIdsToTree s cs (mintId s id n).2).1) = true
    rw [allIdent_tree s cs (mintId s id n).2 hfs]
    rfl
  | form id t fs sl aid =>
    rw [assignNode_form]
    show ((some (mintId s id n).1).isSome &&
      allIdentifiedList (assignFields s fs (mintId s id n).2).1) = true
    rw [allIdent_fields s fs (mintId s id n).2 hfs]
    rfl
  | text id tx v => rfl
  | heading id tx l => rfl
  | button id l v a => rfl
  | input id p => rfl
  | list id items => rfl
  | table id c r => rfl
  | code id l c => rfl
termination_by sizeOf nd

theorem allIdent_tree (s : Nat → String) (l : List UIElement) (n : Nat)
    (hfs : fieldsSimpleList l = true) :
    allIdentifiedList (assignIdsToTree s l n).1 = true := by
  cases l with
  | nil => rfl
  | cons nd rest =>
    simp only [fieldsSimpleList, Bool.and_eq_true] at hfs
    rw [assignTree_cons]
    show (allIdentified (assignIdsToNode s nd n).1 &&
      allIdentifiedList (assignIdsToTree s rest (assignIdsToNode s nd n).2).1) = true
    rw [allIdent_node s nd n hfs.1, allIdent_tree s rest (assignIdsToNode s nd n).2 hfs.2]
    rfl
termination_by sizeOf l

end

/-- C2 (amended). For a schema-valid envelope (its forms hold only `input`
fields) whose pre-assigned ids are non-empty, pairwise distinct, and disjoint
from everything the (injective, non-empty) minting source can produce,
normalization leaves every reachable node with a non-empty id and all
reachable ids pairwise distinct. -/
theorem ensureIds_unique_ids (s : Nat → String) (n : Nat) (resp : AgentResponse)
    (hinj : Function.Injective s)
    (hmint_ne : ∀ k, s k ≠ "")
    (hfs : fieldsSimpleList resp.ui = true)
    (hpre_ne : ∀ y ∈ collectIdsList resp.ui, y ≠ "")
    (hpw : (collectIdsList resp.ui).Pairwise (· ≠ ·))
    (hfresh : ∀ y ∈ collectIdsList resp.ui, ∀ k, s k ≠ y) :
    allIdentifiedList (ensureIds s n resp).ui = true ∧
    (∀ y ∈ collectIdsList (ensureIds s n resp).ui, y ≠ "") ∧
    (collectIdsList (ensureIds s n resp).ui).Pairwise (· ≠ ·) := by
  obtain ⟨hmono, hmem, hpw'⟩ := uniq_tree hinj resp.ui n hfs hfresh hpw
  refine ⟨allIdent_tree s resp.ui n hfs, ?_, hpw'⟩
  intro y hy
  rcases hmem y hy with hpre | ⟨k, _, _, hk⟩
  · exact hpre_ne y hpre
  · subst hk
    exact hmint_ne k


theorem supply₀_injective : Function.Injective supply₀ := by
  intro a b h
  have hdata : List.replicate (a + 1) 'u' = List.replicate (b + 1) 'u' :=
    congrArg String.data h
  have hlen := congrArg List.length hdata
  simp only [List.length_replicate] at hlen
  omega

theorem supply₀_ne_empty (k : Nat) : supply₀ k ≠ "" := by
  intro h
  have hdata : List.replicate (k + 1) 'u' = [] := congrArg String.data h
  simp [List.replicate_succ] at hdata

theorem supply₀_ne_a (k : Nat) : supply₀ k ≠ "a" := by
  intro h
  have hdata : List.replicate (k + 1) 'u' = ['a'] := congrArg String.data h
  rw [List.replicate_succ] at hdata
  simp at hdata

/-- Witness for C2 (amended) at a concrete envelope: one pinned id `a` plus
one unidentified node, normalized with `supply₀`. -/
theorem ensureIds_unique_ids_witness :
    allIdentifiedList (ensureIds supply₀ 0
        ⟨some "W", none, [], [.text (some "a") "x" "body", .text none "y" "body"],
          [], [], none⟩).ui = true ∧
    (∀ y ∈ collectIdsList (ensureIds supply₀ 0
        ⟨some "W", none, [], [.text (some "a") "x" "body", .text none "y" "body"],
          [], [], none⟩).ui, y ≠ "") ∧
    (collectIdsList (ensureIds supply₀ 0
        ⟨some "W", none, [], [.text (some "a") "x" "body", .text none "y" "body"],
          [], [], none⟩).ui).Pairwise (· ≠ ·) :=
  ensureIds_unique_ids supply₀ 0
    ⟨some "W", none, [], [.text (some "a") "x" "body", .text none "y" "body"], [], [], none⟩
    supply₀_injective supply₀_ne_empty (by rfl)
    (by intro y hy; simp only [collectIdsList, collectIds] at hy; simp at hy; simp [hy])
    (by simp [collectIdsList, collectIds])
    (by
      intro y hy
      simp only [collectIdsList, collectIds] at hy
      simp at hy
      subst hy
      exact supply₀_ne_a)


/-- C2 counterexample. `dupEnvelope` is schema-valid (its serialization
validates to itself) and `supply₀` is an injective, non-empty minting source,
yet after normalization the reachable ids are not pairwise distinct: the two
pre-assigned `a`s are preserved verbatim. -/
theorem ensureIds_not_unique_counterexample :
    parseAgentResponse (encodeResponse dupEnvelope) = .ok dupEnvelope ∧
    Function.Injective supply₀ ∧ (∀ k, supply₀ k ≠ "") ∧
    ¬ (collectIdsList (ensureIds supply₀ 0 dupEnvelope).ui).Pairwise (· ≠ ·) := by
  refine ⟨by rfl, supply₀_injective, supply₀_ne_empty, ?_⟩
  intro h
  have hui : collectIdsList (ensureIds supply₀ 0 dupEnvelope).ui = ["a", "a"] := rfl
  rw [hui] at h
  exact (List.pairwise_cons.mp h).1 "a" (by simp) rfl

/-! ## Schema validation: defaults, ranges, rejections (C5, C6, C7) -/


theorem parseUIElement_headingRaw (l : Int) :
    parseUIElement (headingRaw l) =
      Except.bind (parseNumRange 1 4 2 (some (.num l)))
        (fun level => Except.ok (.heading none "x" level)) := rfl

theorem parseUIElement_containerGapRaw (g : Int) :
    parseUIElement (containerGapRaw g) =
      Except.bind (parseNumRange 0 48 12 (some (.num g)))
        (fun gap => Except.ok (.container none "column" gap "start" "start" [])) := rfl

theorem heading_level_rejected {l : Int} (hl : l < 1 ∨ 4 < l) :
    (parseUIElement (headingRaw l)).isOk = false := by
  rw [parseUIElement_headingRaw]
  have : parseNumRange 1 4 2 (some (.num l)) = .error "number out of range" := by
    simp only [parseNumRange]
    rw [if_neg (by omega)]
  rw [this]
  rfl

theorem container_gap_rejected {g : Int} (hg : g < 0 ∨ 48 < g) :
    (parseUIElement (containerGapRaw g)).isOk = false := by
  rw [parseUIElement_containerGapRaw]
  have : parseNumRange 0 48 12 (some (.num g)) = .error "number out of range" := by
    simp only [parseNumRange]
    rw [if_neg (by omega)]
  rw [this]
  rfl

theorem parseUIInput_not_input {v : JValue} (h : jTypeOf v ≠ some (.str "input")) :
    ∃ e, parseUIInput v = .error e := by
  cases v with
  | obj fs =>
    simp only [jTypeOf] at h
    cases hl : jlookup "type" fs with
    | none => exact ⟨_, by rw [parseUIInput, hl]⟩
    | some w =>
      cases w with
      | str t =>
        have hne : t ≠ "input" := by
          intro ht
          subst ht
          exact h hl
        refine ⟨"fields entry must be an input element", ?_⟩
        rw [parseUIInput, hl]
        dsimp only
        rw [if_neg hne]
      | null => exact ⟨_, by rw [parseUIInput, hl]⟩
      | bool b => exact ⟨_, by rw [parseUIInput, hl]⟩
      | num x => exact ⟨_, by rw [parseUIInput, hl]⟩
      | arr xs => exact ⟨_, by rw [parseUIInput, hl]⟩
      | obj gs => exact ⟨_, by rw [parseUIInput, hl]⟩
  | null => exact ⟨_, rfl⟩
  | bool b => exact ⟨_, rfl⟩
  | num x => exact ⟨_, rfl⟩
  | str t => exact ⟨_, rfl⟩
  | arr xs => exact ⟨_, rfl⟩

theorem parseFields_bad (vs₁ : List JValue) {v : JValue} (vs₂ : List JValue)
    (h : jTypeOf v ≠ some (.str "input")) :
    ∃ e, parseFields (vs₁ ++ v :: vs₂) = .error e := by
  induction vs₁ with
  | nil =>
    obtain ⟨e, he⟩ := parseUIInput_not_input h
    refine ⟨e, ?_⟩
    show Except.bind (parseUIInput v) _ = .error e
    rw [he]
    rfl
  | cons w ws ih =>
    obtain ⟨e, he⟩ := ih
    cases hw : parseUIInput w with
    | error e' =>
      refine ⟨e', ?_⟩
      show (Except.bind (parseUIInput w) fun f =>
        Except.bind (parseFields (ws ++ v :: vs₂)) fun rest =>
          Except.ok (f :: rest)) = _
      rw [hw]
      rfl
    | ok f =>
      refine ⟨e, ?_⟩
      show (Except.bind (parseUIInput w) fun f =>
        Except.bind (parseFields (ws ++ v :: vs₂)) fun rest =>
          Except.ok (f :: rest)) = _
      rw [hw, he]
      rfl

theorem parseUIElement_formFieldsRaw (vs : List JValue) :
    parseUIElement (formFieldsRaw vs) =
      Except.bind (parseFields vs)
        (fun fields => Except.ok (.form none none fields "Submit" none)) := rfl

/-- C7. Default application: a heading with only `text` validates with
`level = 2`; a container with empty props validates with
`direction = "column"`, `gap = 12`, `align = "start"`, `justify = "start"`
(and the `children` default `[]`). -/
theorem builtin_defaults_applied :
    parseUIElement (.obj [("type", .str "heading"), ("props", .obj [("text", .str "Hi")])])
      = .ok (.heading none "Hi" 2) ∧
    parseUIElement (.obj [("type", .str "container"), ("props", .obj [])])
      = .ok (.container none "column" 12 "start" "start" []) := ⟨rfl, rfl⟩

/-- C6. Rejections: an `input` without the required `name` fails; a `heading`
whose `level` is outside `[1,4]` fails; a `form` whose `fields` array holds
any entry whose `type` discriminant is not `input` fails. -/
theorem builtin_rejections :
    (parseUIElement (.obj [("type", .str "input"), ("props", .obj [])])).isOk = false ∧
    (∀ l : Int, l < 1 ∨ 4 < l → (parseUIElement (headingRaw l)).isOk = false) ∧
    (∀ (vs₁ : List JValue) (v : JValue) (vs₂ : List JValue),
      jTypeOf v ≠ some (.str "input") →
        (parseUIElement (formFieldsRaw (vs₁ ++ v :: vs₂))).isOk = false) := by
  refine ⟨rfl, fun l hl => heading_level_rejected hl, ?_⟩
  intro vs₁ v vs₂ h
  rw [parseUIElement_formFieldsRaw]
  obtain ⟨e, he⟩ := parseFields_bad vs₁ vs₂ h
  rw [he]
  rfl

/-- Witness for C6 at concrete inputs: `level = 9` is rejected, and a `form`
whose `fields` hold a `text` node is rejected. -/
theorem builtin_rejections_witness :
    (((9 : Int) < 1 ∨ 4 < (9 : Int)) ∧ (parseUIElement (headingRaw 9)).isOk = false) ∧
    (jTypeOf (.obj [("type", .str "text"), ("props", .obj [("text", .str "x")])])
        ≠ some (.str "input") ∧
      (parseUIElement (formFieldsRaw
        ([] ++ (.obj [("type", .str "text"), ("props", .obj [("text", .str "x")])]) :: []))).isOk
        = false) := by
  have hty : jTypeOf (.obj [("type", .str "text"), ("props", .obj [("text", .str "x")])])
      ≠ some (.str "input") := by
    intro h
    simp only [jTypeOf, jlookup, if_pos] at h
    injection h with h'
    injection h' with h''
    exact absurd h'' (by decide)
  exact ⟨⟨by norm_num, builtin_rejections.2.1 9 (by norm_num)⟩,
    ⟨hty, builtin_rejections.2.2 [] _ [] hty⟩⟩

/-- C5 counterexample. The claim says an out-of-range `gap`/`level` is clamped
into range and the node accepted; in fact both are rejected by validation
(`zod` `.min`/`.max` are constraints, not clamps): `gap = 100` and `level = 9`
both fail. -/
theorem clamping_counterexample :
    (parseUIElement (containerGapRaw 100)).isOk = false ∧
    (parseUIElement (headingRaw 9)).isOk = false := ⟨rfl, rfl⟩

/-- C5 (amended). `gap` defaults to `12` and `level` to `2` when unset, but an
out-of-range `gap` (outside `[0,48]`) or `level` (outside `[1,4]`) causes the
node to be REJECTED, not clamped. -/
theorem gap_level_defaults_and_rejection :
    (∀ g : Int, g < 0 ∨ 48 < g → (parseUIElement (containerGapRaw g)).isOk = false) ∧
    (∀ l : Int, l < 1 ∨ 4 < l → (parseUIElement (headingRaw l)).isOk = false) ∧
    parseUIElement (.obj [("type", .str "container"), ("props", .obj [])])
      = .ok (.container none "column" 12 "start" "start" []) ∧
    parseUIElement (.obj [("type", .str "heading"), ("props", .obj [("text", .str "hi")])])
      = .ok (.heading none "hi" 2) :=
  ⟨fun g hg => container_gap_rejected hg, fun l hl => heading_level_rejected hl, rfl, rfl⟩

/-- Witness for C5 (amended) at `gap = 100` and `level = 9`. -/
theorem gap_level_defaults_and_rejection_witness :
    (((100 : Int) < 0 ∨ 48 < (100 : Int)) ∧
      (parseUIElement (containerGapRaw 100)).isOk = false) ∧
    (((9 : Int) < 1 ∨ 4 < (9 : Int)) ∧ (parseUIElement (headingRaw 9)).isOk = false) :=
  ⟨⟨by norm_num, gap_level_defaults_and_rejection.1 100 (by norm_num)⟩,
    ⟨by norm_num, gap_level_defaults_and_rejection.2.1 9 (by norm_num)⟩⟩

/-! ## The fallback synthesizer (C8, C9) -/

/-- C8. The fallback synthesizer is a deterministic function of the prompt
(it is a pure function here by construction) with first-matching-rule-wins
priority: pricing/tier vocabulary yields a `table` as the sole ui node with
exactly the two fixed rows (Basic, Pro) over three columns; otherwise
dashboard/stat vocabulary yields a `container` with exactly 3 stat cards;
otherwise a `container` with exactly a `heading` then a `text` node echoing
the prompt verbatim. -/
theorem buildFallbackResponse_first_match (p : String) :
    (pricingMatch (lowerStr p) = true →
      (buildFallbackResponse p).ui = [.table none
        [⟨"tier", "Tier"⟩, ⟨"price", "Price"⟩, ⟨"features", "Features"⟩]
        [[("tier", .str "Basic"), ("price", .str "$10/mo"),
            ("features", .str "Feature A, Feature B")],
          [("tier", .str "Pro"), ("price", .str "$20/mo"),
            ("features", .str "Feature A, Feature B, Feature C")]]]) ∧
    (pricingMatch (lowerStr p) = false → dashboardMatch (lowerStr p) = true →
      (buildFallbackResponse p).ui = [.container none "row" 16 "start" "start"
        [statCard "Users" "1,234" (some "+12% MoM"),
          statCard "Revenue" "$56,789" (some "+5% MoM"),
          statCard "Conversion" "3.2%" (some "+0.3 pp")]]) ∧
    (pricingMatch (lowerStr p) = false → dashboardMatch (lowerStr p) = false →
      (buildFallbackResponse p).ui = [.container none "column" 12 "start" "start"
        [.heading none "Request" 3, .text none p "body"]]) := by
  refine ⟨fun hp => ?_, fun hp hd => ?_, fun hp hd => ?_⟩ <;>
    simp [buildFallbackResponse, hp, *]

/-- Witness for C8: one concrete prompt per rule, in priority order. -/
theorem buildFallbackResponse_first_match_witness :
    (pricingMatch (lowerStr "Build a pricing table with 3 tiers") = true ∧
      (buildFallbackResponse "Build a pricing table with 3 tiers").ui = [.table none
        [⟨"tier", "Tier"⟩, ⟨"price", "Price"⟩, ⟨"features", "Features"⟩]
        [[("tier", .str "Basic"), ("price", .str "$10/mo"),
            ("features", .str "Feature A, Feature B")],
          [("tier", .str "Pro"), ("price", .str "$20/mo"),
            ("features", .str "Feature A, Feature B, Feature C")]]]) ∧
    (pricingMatch (lowerStr "Make a dashboard card with stats") = false ∧
      dashboardMatch (lowerStr "Make a dashboard card with stats") = true ∧
      (buildFallbackResponse "Make a dashboard card with stats").ui =
        [.container none "row" 16 "start" "start"
          [statCard "Users" "1,234" (some "+12% MoM"),
            statCard "Revenue" "$56,789" (some "+5% MoM"),
            statCard "Conversion" "3.2%" (some "+0.3 pp")]]) ∧
    (pricingMatch (lowerStr "anything else") = false ∧
      dashboardMatch (lowerStr "anything else") = false ∧
      (buildFallbackResponse "anything else").ui =
        [.container none "column" 12 "start" "start"
          [.heading none "Request" 3, .text none "anything else" "body"]]) :=
  ⟨⟨rfl, (buildFallbackResponse_first_match _).1 rfl⟩,
    ⟨rfl, rfl, (buildFallbackResponse_first_match _).2.1 rfl rfl⟩,
    ⟨rfl, rfl, (buildFallbackResponse_first_match _).2.2 rfl rfl⟩⟩

/-- C9. The fallback synthesizer is total and cannot fail: for every prompt it
produces an envelope that validates against the built-in schema (its
serialization parses back to exactly itself), with non-empty `suggestions` and
empty `actions` and `messages`. -/
theorem buildFallbackResponse_total_and_valid (p : String) :
    parseAgentResponse (encodeResponse (buildFallbackResponse p)) =
      .ok (buildFallbackResponse p) ∧
    (buildFallbackResponse p).suggestions ≠ [] ∧
    (buildFallbackResponse p).actions = [] ∧
    (buildFallbackResponse p).messages = [] := by
  cases hp : pricingMatch (lowerStr p) with
  | true =>
    simp only [buildFallbackResponse, hp, if_true]
    refine ⟨?_, ?_, ?_, ?_⟩ <;> first | rfl | simp
  | false =>
    cases hd : dashboardMatch (lowerStr p) with
    | true =>
      simp only [buildFallbackResponse, hp, hd, if_true, Bool.false_eq_true, if_false]
      refine ⟨?_, ?_, ?_, ?_⟩ <;> first | rfl | simp
    | false =>
      simp only [buildFallbackResponse, hp, hd, Bool.false_eq_true, if_false]
      refine ⟨?_, ?_, ?_, ?_⟩ <;> first | rfl | simp

/-! ## Orchestrator behavior (C4, C10) -/

/-- C4 evaluation at the failing input. With a caller-supplied custom schema
(here: one that rejects every proposal) and a failing generation — whether the
backend's output fails schema validation (`some args` rejected) or the backend
throws/produces no tool call (`none`) — the `generateText`-based `respond`
(lib/src/agent/index.ts) RETURNS the built-in fallback envelope, force-cast to
the custom schema type, instead of propagating an error; the
`generateObject`-based variant (src/src/agent/index.ts) rethrows. -/
theorem respond_custom_schema_failure_returns_fallback :
    respond "make a widget" (some { schema := some (fun _ => false) })
        (some (.obj [])) supply₀ 0 =
      .ok (encodeResponse (buildFallbackResponse "make a widget")) ∧
    respond "make a widget" (some { schema := some (fun _ => false) })
        none supply₀ 0 =
      .ok (encodeResponse (buildFallbackResponse "make a widget")) ∧
    (respond "make a widget" (some { schema := some (fun _ => false) })
        none supply₀ 0).isRaised = false ∧
    (srcRespond "make a widget" (some { schema := some (fun _ => false) })
        none supply₀ 0).isRaised = true :=
  ⟨rfl, rfl, rfl, rfl⟩

/-- C10. The factory form is observationally equivalent to the direct call:
for every configuration, prompt, backend outcome, identifier supply and
counter, `createAgent(config).respond(prompt)` returns exactly
`respond(prompt, config)` — and likewise for the `src/src/agent` variant. -/
theorem createAgent_respond_equiv (config : Option AgentConfig) (p : String)
    (gen : Option JValue) (supply : Nat → String) (n : Nat) :
    (createAgent config).respond p gen supply n = respond p config gen supply n ∧
    (srcCreateAgent config).respond p gen supply n = srcRespond p config gen supply n :=
  ⟨rfl, rfl⟩

end DUA
